import Mathlib

/-!
Verification of the QuickAPI templating core (`quickapi/templates/core.py`).

The Python source is shallowly embedded: classes become structures,
Python `dict`s become insertion-ordered association lists (assignment
replaces an existing binding in place, otherwise appends), exceptions
become `Except String`, and the process-wide event-handler registry plus
its counter become an explicit `HState` value that is threaded through
the functions that read or write it.  Opaque Python artefacts that the
code only passes through `str(...)` (functions, arbitrary objects) carry
their rendered string alongside the value.
-/

namespace QuickAPI

/-- Python values as far as the templating core inspects them: `None`,
booleans, integers and strings.  (Callable values returned by event
handlers are kept apart in `HandlerResult`, mirroring the
`callable(result)` test in `_handle_execute_handler`.) -/
inductive Value where
  | none
  | bool (b : Bool)
  | int (n : Int)
  | str (s : String)
deriving DecidableEq, Repr

/-- The `MockEvent` object built inside `_handle_execute_handler`:
`self.target = None`, `self.preventDefault = lambda: None`. -/
structure MockEvent where
  target : Value
  preventDefault : Unit → Value

/-- Python `result = handler(MockEvent())` is afterwards tested with
`callable(result)`: either a plain value or a callable.  A callable
application may raise, hence `Except String`. -/
inductive HandlerResult where
  | val (v : Value)
  | func (f : Value → Except String Value)

/-- An event handler registered in the global `_event_handlers` map.  It
may raise; `Except.error e` models a raised exception with message
`str(e) = e`. -/
def Handler : Type := MockEvent → Except String HandlerResult

/-- One entry of `hook_context.reducers`: `{'reducer': ..., 'state_key': ...}`
as read by `_handle_dispatch_action`. -/
structure ReducerInfo where
  reducer : Value → Value → Except String Value
  state_key : String

/-! ### Insertion-ordered dictionaries (Python `dict`) -/

/-- Python `d.get(k)` / `k in d` on a dict, as an association list. -/
def lookup {α : Type} : List (String × α) → String → Option α
  | [], _ => Option.none
  | (k', v) :: rest, k => if k' = k then some v else lookup rest k

/-- Python `d[k] = v` on a dict: replace in place if the key is bound,
otherwise append (Python dicts preserve insertion order). -/
def setKey {α : Type} : List (String × α) → String → α → List (String × α)
  | [], k, v => [(k, v)]
  | (k', v') :: rest, k, v =>
       if k' = k then (k, v) :: rest else (k', v') :: setKey rest k v

/-- Python `d.update(other)`: assign every binding of `other` in order. -/
def updateAll {α : Type} (ps : List (String × α)) (kw : List (String × α)) :
    List (String × α) :=
  kw.foldl (fun acc kv => setKey acc kv.1 kv.2) ps

theorem lookup_setKey_self {α : Type} (l : List (String × α)) (k : String) (v : α) :
    lookup (setKey l k v) k = some v := by
  induction l with
  | nil => simp [setKey, lookup]
  | cons hd tl ih =>
      by_cases h : hd.1 = k
      · simp [setKey, lookup, h]
      · simp [setKey, lookup, h, ih]

theorem lookup_setKey_ne {α : Type} (l : List (String × α)) {k k' : String} (v : α)
    (h : k' ≠ k) : lookup (setKey l k v) k' = lookup l k' := by
  have hkk : ¬k = k' := fun h' => h h'.symm
  induction l with
  | nil =>
      simp only [setKey, lookup]
      rw [if_neg hkk]
  | cons hd tl ih =>
      obtain ⟨k1, v1⟩ := hd
      by_cases hk : k1 = k
      · subst hk
        simp only [setKey, if_pos rfl, lookup]
        rw [if_neg hkk, if_neg hkk]
      · simp only [setKey, if_neg hk, lookup, ih]

/-- If a key is bound nowhere in `kw`, `update` leaves its binding alone. -/
theorem lookup_updateAll_notMem {α : Type} (ps kw : List (String × α)) (k : String)
    (h : lookup kw k = Option.none) : lookup (updateAll ps kw) k = lookup ps k := by
  induction kw generalizing ps with
  | nil => simp [updateAll]
  | cons hd tl ih =>
      simp only [lookup] at h
      by_cases hk : hd.1 = k
      · simp [hk] at h
      · simp only [updateAll, List.foldl] at *
        rw [ih (setKey ps hd.1 hd.2) (by simpa [hk] using h)]
        exact lookup_setKey_ne ps hd.2 fun h' => hk h'.symm

/-! ### Decimal digits: `Nat.repr` is injective

`register_event_handler` builds ids `f"handler_{counter}"`; to show ids
from distinct counter values differ we prove that decimal rendering is
injective, by decoding the digit list back to the number. -/

/-- Decode one decimal digit character. -/
def decDigit (c : Char) : Nat := c.toNat - 48

/-- Decode a most-significant-first digit list. -/
def decChars (l : List Char) : Nat := l.foldl (fun a c => a * 10 + decDigit c) 0

theorem decDigit_digitChar (m : Nat) (h : m < 10) :
    decDigit (Nat.digitChar m) = m := by
  interval_cases m <;> rfl

theorem foldl_decChars (a : Nat) (l : List Char) :
    l.foldl (fun a c => a * 10 + decDigit c) a = a * 10 ^ l.length + decChars l := by
  induction l generalizing a with
  | nil => simp [decChars]
  | cons c cs ih =>
      simp only [List.foldl, decChars] at *
      rw [ih (a * 10 + decDigit c), ih (0 * 10 + decDigit c)]
      simp only [List.length_cons, pow_succ]
      ring

theorem toDigitsCore_append (f n : Nat) (acc : List Char) :
    Nat.toDigitsCore 10 f n acc = Nat.toDigitsCore 10 f n [] ++ acc := by
  induction f generalizing n acc with
  | zero => simp [Nat.toDigitsCore]
  | succ f ih =>
      simp only [Nat.toDigitsCore]
      by_cases h : n / 10 = 0
      · simp [h]
      · simp only [h, if_false]
        rw [ih (n / 10) (Nat.digitChar (n % 10) :: acc),
            ih (n / 10) [Nat.digitChar (n % 10)]]
        simp

theorem decChars_toDigitsCore (f : Nat) :
    ∀ n : Nat, n < f → decChars (Nat.toDigitsCore 10 f n []) = n := by
  induction f with
  | zero => intro n h; omega
  | succ f ih =>
      intro n h
      simp only [Nat.toDigitsCore]
      by_cases hd : n / 10 = 0
      · have hn : n % 10 = n := by omega
        simp [hd, decChars, List.foldl, hn, decDigit_digitChar n (by omega)]
      · have hge : 10 ≤ n := by
          by_contra hlt
          exact hd (Nat.div_eq_of_lt (by omega))
        have hfuel : n / 10 < f := by
          have := Nat.div_lt_self (by omega : 0 < n) (by omega : 1 < 10)
          omega
        simp only [hd, if_false]
        rw [toDigitsCore_append f (n / 10) [Nat.digitChar (n % 10)]]
        simp only [decChars, List.foldl_append, List.foldl]
        have hrec := ih (n / 10) hfuel
        simp only [decChars] at hrec
        rw [hrec, decDigit_digitChar (n % 10) (by omega)]
        omega

theorem natRepr_injective : ∀ m n : Nat, Nat.repr m = Nat.repr n → m = n := by
  intro m n h
  have hm : decChars (Nat.toDigitsCore 10 (m + 1) m []) = m :=
    decChars_toDigitsCore (m + 1) m (Nat.lt_succ_self m)
  have hn : decChars (Nat.toDigitsCore 10 (n + 1) n []) = n :=
    decChars_toDigitsCore (n + 1) n (Nat.lt_succ_self n)
  have hdata : Nat.toDigitsCore 10 (m + 1) m [] = Nat.toDigitsCore 10 (n + 1) n [] := by
    have := congrArg String.data h
    simpa [Nat.repr, Nat.toDigits, List.asString] using this
  rw [hdata] at hm
  omega

theorem string_append_left_cancel {s a b : String} (h : s ++ a = s ++ b) : a = b := by
  have hd : (s ++ a).data = (s ++ b).data := congrArg String.data h
  cases s with
  | mk sd =>
      cases a with
      | mk ad =>
          cases b with
          | mk bd =>
              simp only [String.data_append] at hd
              exact congrArg String.mk (List.append_cancel_left hd)

/-! ### Element: the virtual-DOM node (`class Element`) -/

/-- A value bound to an element attribute (`props: Dict[str, Any]`).
`to_html` distinguishes callables, dicts (for `style`) and everything
else; values the code renders with `str(...)` carry that string as `r`. -/
inductive PropVal where
  | str (s : String)
  | styleDict (entries : List (String × String)) (r : String)
  | func (h : Handler) (r : String)
  | other (r : String)

/-- Python `str(value)` / f-string interpolation of an attribute value. -/
def PropVal.pyStr : PropVal → String
  | .str s => s
  | .styleDict _ r => r
  | .func _ r => r
  | .other r => r

mutual
/-- The dataclass `Element(tag, props, children, key, component_id)`. -/
inductive Elem where
  | mk (tag : String) (props : List (String × PropVal)) (children : List Child)
       (key : Option String) (component_id : Option String)
/-- One entry of `Element.children`: a nested `Element`, a `RawHTML`
wrapper (has `to_html`, `str` gives its content), or any other value
already rendered by `str(...)`. -/
inductive Child where
  | elem (e : Elem)
  | raw (s : String)
  | text (s : String)
end

def Elem.tag : Elem → String
  | .mk t _ _ _ _ => t

def Elem.props : Elem → List (String × PropVal)
  | .mk _ p _ _ _ => p

def Elem.children : Elem → List Child
  | .mk _ _ c _ _ => c

def Elem.key : Elem → Option String
  | .mk _ _ _ k _ => k

def Elem.component_id : Elem → Option String
  | .mk _ _ _ _ c => c

/-! ### The process-wide event-handler registry -/

/-- The module-level mutable state `_event_handlers` / `_handler_counter`. -/
structure HState where
  counter : Nat
  handlers : List (String × Handler)

/-- Source `register_event_handler`: build `f"handler_{_handler_counter}"`,
bump the counter, store the handler, return the id.  (Python renders the
counter in decimal, i.e. `Nat.repr`.) -/
def register_event_handler (hs : HState) (handler : Handler) : String × HState :=
  let handler_id := "handler_" ++ Nat.repr hs.counter
  (handler_id, ⟨hs.counter + 1, setKey hs.handlers handler_id handler⟩)

/-- Character-list core of Python `s.startswith(p)`. -/
def beginsWithAux : List Char → List Char → Bool
  | _, [] => true
  | [], _ :: _ => false
  | a :: as, b :: bs => a == b && beginsWithAux as bs

/-- Python `s.startswith(p)`, character by character. -/
def beginsWith (s p : String) : Bool :=
  beginsWithAux s.data p.data

/-- Python `s.replace('_', '-')`: with a one-character pattern and
replacement this is exactly the character map. -/
def pyReplace (s : String) : String :=
  String.mk (s.data.map fun c => if c = '_' then '-' else c)

/-- Source `'; '.join(f"{k.replace('_', '-')}: {v}" for k, v in value.items())`. -/
def styleStr (entries : List (String × String)) : String :=
  String.intercalate "; " (entries.map fun kv => pyReplace kv.1 ++ ": " ++ kv.2)

/-- The body of the attribute loop in `Element.to_html`: one `(key, value)`
pair produces exactly one entry of `attrs`, possibly registering an event
handler. -/
def attrEntry (hs : HState) (key : String) (value : PropVal) : String × HState :=
  if beginsWith key "on_" then
    match value with
    | .func h _ =>
        let p := register_event_handler hs h
        ("data-handler=\"" ++ p.1 ++ "\"", p.2)
    | v => ("data-action=\"" ++ v.pyStr ++ "\"", hs)
  else if key = "class_" then ("class=\"" ++ value.pyStr ++ "\"", hs)
  else if key = "style" then
    match value with
    | .styleDict entries _ => ("style=\"" ++ styleStr entries ++ "\"", hs)
    | v => (pyReplace key ++ "=\"" ++ v.pyStr ++ "\"", hs)
  else if key = "data_bind" then ("data-bind=\"" ++ value.pyStr ++ "\"", hs)
  else (pyReplace key ++ "=\"" ++ value.pyStr ++ "\"", hs)

/-- The whole attribute loop: `attrs` in source order, threading the
handler registry. -/
def attrsFold : List (String × PropVal) → HState → List String × HState
  | [], hs => ([], hs)
  | (k, v) :: rest, hs =>
      let p := attrEntry hs k v
      let q := attrsFold rest p.2
      (p.1 :: q.1, q.2)

/-- Source `attrs_str = ' ' + ' '.join(attrs) if attrs else ''`. -/
def attrsStr (attrs : List String) : String :=
  if attrs.isEmpty then "" else " " ++ String.intercalate " " attrs

/-- The list `['br', 'hr', 'img', 'input', 'meta', 'link']`. -/
def selfClosingTags : List String := ["br", "hr", "img", "input", "meta", "link"]

mutual
/-- Source `Element.to_html`, with the global handler registry threaded. -/
def toHtml : Elem → HState → String × HState
  | .mk tag props children _ _, hs =>
      let pa := attrsFold props hs
      let astr := attrsStr pa.1
      if tag ∈ selfClosingTags then
        ("<" ++ tag ++ astr ++ " />", pa.2)
      else
        let pc := childrenHtml children pa.2
        ("<" ++ tag ++ astr ++ ">" ++ pc.1 ++ "</" ++ tag ++ ">", pc.2)

/-- Source `''.join(child.to_html() if hasattr(child, 'to_html') else str(child) ...)`. -/
def childrenHtml : List Child → HState → String × HState
  | [], hs => ("", hs)
  | c :: cs, hs =>
      let p := childHtml c hs
      let q := childrenHtml cs p.2
      (p.1 ++ q.1, q.2)

def childHtml : Child → HState → String × HState
  | .elem e, hs => toHtml e hs
  | .raw s, hs => (s, hs)
  | .text s, hs => (s, hs)
end

/-! ### Serialization: `Element.to_dict` and re-hydration -/

mutual
/-- The dictionary produced by `to_dict`:
`{tag, props, children, key, componentId}`. -/
inductive EDict where
  | mk (tag : String) (props : List (String × PropVal)) (children : List DChild)
       (key : Option String) (componentId : Option String)
/-- One serialized child: `child.to_dict()` for `Element` children,
`str(child)` otherwise. -/
inductive DChild where
  | str (s : String)
  | dict (d : EDict)
end

mutual
/-- Source `Element.to_dict`. -/
def to_dict : Elem → EDict
  | .mk tag props children key cid => EDict.mk tag props (childrenDict children) key cid

def childrenDict : List Child → List DChild
  | [] => []
  | c :: cs => childDict c :: childrenDict cs

def childDict : Child → DChild
  | .elem e => DChild.dict (to_dict e)
  | .raw s => DChild.str s
  | .text s => DChild.str s
end

mutual
/-- Modelled from the spec: re-hydration of a `to_dict` dictionary back
into an `Element` tree (the spec's round-trip property names it; no
hydration function exists in the provided sources).  Fields `tag`,
`props`, `children` (recursively; string children become text children),
`key` and `componentId` are read back. -/
def hydrate : EDict → Elem
  | .mk tag props children key cid => Elem.mk tag props (hydrateChildren children) key cid

def hydrateChildren : List DChild → List Child
  | [] => []
  | c :: cs => hydrateChild c :: hydrateChildren cs

def hydrateChild : DChild → Child
  | .str s => Child.text s
  | .dict d => Child.elem (hydrate d)
end

mutual
/-- The identity on `Element` trees except that every non-`Element`
child is replaced by its stringification (`RawHTML` by its content). -/
def stringifyTree : Elem → Elem
  | .mk tag props children key cid => Elem.mk tag props (stringifyChildren children) key cid

def stringifyChildren : List Child → List Child
  | [] => []
  | c :: cs => stringifyChild c :: stringifyChildren cs

def stringifyChild : Child → Child
  | .elem e => Child.elem (stringifyTree e)
  | .raw s => Child.text s
  | .text s => Child.text s
end

/-! ### `HTMLElement.__call__`: the tag constructor -/

/-- One positional argument of `HTMLElement.__call__`, as classified by
the source: a `dict` (with its `str(...)` rendering `r`, used when it is
not in first position), an `Element`, a `list`, `None`, or any other
value rendered by `str(...)`. -/
inductive Arg where
  | dictArg (ps : List (String × PropVal)) (r : String)
  | elemArg (e : Elem)
  | listArg (cs : List Child)
  | noneArg
  | other (r : String)

/-- The children contributed by one positional argument in non-first
position (and by the first when it is not a dict): `Element` appended
as-is, `list` extended, `None` skipped, anything else stringified. -/
def argChildren : Arg → List Child
  | .dictArg _ r => [Child.text r]
  | .elemArg e => [Child.elem e]
  | .listArg cs => cs
  | .noneArg => []
  | .other r => [Child.text r]

def collectChildren (args : List Arg) : List Child :=
  (args.map argChildren).flatten

/-- Source `HTMLElement.__call__(self, *args, **kwargs)`: a first positional
dict becomes `props`, every other positional argument is classified into
children, then `props.update(kwargs)`. -/
def htmlElementCall (tag : String) (args : List Arg)
    (kwargs : List (String × PropVal)) : Elem :=
  match args with
  | Arg.dictArg ps _ :: rest =>
      Elem.mk tag (updateAll ps kwargs) (collectChildren rest) Option.none Option.none
  | _ =>
      Elem.mk tag (updateAll [] kwargs) (collectChildren args) Option.none Option.none

/-! ### Hook context, components and the engine (`QuickTemplate`) -/

/-- Modelled from the spec: `HookContext` lives in
`quickapi/templates/hooks.py`, which is not among the provided sources;
§3 of the spec describes it as holding "a mapping from state-key to
current value, and a mapping from reducer-key to \x7breducer function
reference, associated state-key\x7d", which is exactly how
`core.py` reads `hook_context.states` and `hook_context.reducers`. -/
structure HookContext where
  states : List (String × Value)
  reducers : List (String × ReducerInfo)

/-- A registered component, as far as the RPC handlers inspect it. -/
structure Component where
  hook_context : HookContext

/-- The result dictionaries returned by the RPC handlers:
`success`, optional `error`, optional `state`. -/
structure RpcResult where
  success : Bool
  error : Option String
  state : Option (List (String × Value))
deriving DecidableEq, Repr

/-- The engine `QuickTemplate`: the component registry, plus the observable trace
of `update_component` broadcasts (`updated` records the component ids
for which a re-render/broadcast was triggered, in order). -/
structure QuickTemplate where
  components : List (String × Component)
  updated : List String

/-- Source `QuickTemplate.update_component`: when the id is registered, the
component is re-rendered and the new tree broadcast; we record the id in
the trace.  Re-rendering preserves the hook context's state values
(modelled from the spec, §4.3: `reset()` "preserves the underlying state
values map across renders"; `hooks.py` is not among the sources). -/
def update_component (t : QuickTemplate) (component_id : String) : QuickTemplate :=
  match lookup t.components component_id with
  | some _ => { t with updated := t.updated ++ [component_id] }
  | Option.none => t

/-- Replace a component's state map (in-place mutation of
`component.hook_context.states[k] = v` seen from the registry). -/
def setComponentState (t : QuickTemplate) (component_id : String) (c : Component)
    (k : String) (v : Value) : QuickTemplate :=
  let c' : Component := { c with hook_context := { c.hook_context with
      states := setKey c.hook_context.states k v } }
  { t with components := setKey t.components component_id c' }

/-- Source `QuickTemplate._handle_update_state`. -/
def handle_update_state (t : QuickTemplate) (component_id state_key : String)
    (value : Value) : RpcResult × QuickTemplate :=
  match lookup t.components component_id with
  | some c =>
      if (lookup c.hook_context.states state_key).isSome then
        let t' := setComponentState t component_id c state_key value
        (⟨true, Option.none, Option.none⟩, update_component t' component_id)
      else
        (⟨false, some "Component or state not found", Option.none⟩, t)
  | Option.none => (⟨false, some "Component or state not found", Option.none⟩, t)

/-- Source `QuickTemplate._handle_dispatch_action`: the loop over
`reducers.values()` returns inside its first iteration (both on success
and on exception), so only the first reducer in insertion order runs. -/
def handle_dispatch_action (t : QuickTemplate) (component_id : String)
    (action : Value) : RpcResult × QuickTemplate :=
  match lookup t.components component_id with
  | some c =>
      match c.hook_context.reducers with
      | [] => (⟨false, some "Component or reducer not found", Option.none⟩, t)
      | (_, info) :: _ =>
          let current := (lookup c.hook_context.states info.state_key).getD Value.none
          match info.reducer current action with
          | .ok new_state =>
              let t' := setComponentState t component_id c info.state_key new_state
              (⟨true, Option.none, Option.none⟩, update_component t' component_id)
          | .error e => (⟨false, some e, Option.none⟩, t)
  | Option.none => (⟨false, some "Component or reducer not found", Option.none⟩, t)

/-- Source `QuickTemplate._handle_get_initial_state` (read-only). -/
def handle_get_initial_state (t : QuickTemplate) (component_id : String) : RpcResult :=
  match lookup t.components component_id with
  | some c => ⟨true, Option.none, some c.hook_context.states⟩
  | Option.none => ⟨false, some "Component not found", Option.none⟩

/-- The `MockEvent()` instance built inside `_handle_execute_handler`. -/
def mockEvent : MockEvent :=
  { target := Value.none, preventDefault := fun _ => Value.none }

/-- Source `QuickTemplate._handle_execute_handler`, with the global registry
`hs` passed explicitly. -/
def handle_execute_handler (hs : HState) (t : QuickTemplate)
    (handler_id component_id : String) : RpcResult × QuickTemplate :=
  match lookup hs.handlers handler_id, lookup t.components component_id with
  | some handler, some c =>
      match handler mockEvent with
      | .error e => (⟨false, some e, Option.none⟩, t)
      | .ok (.val _) => (⟨true, Option.none, Option.none⟩, t)
      | .ok (.func f) =>
          match c.hook_context.states with
          | [] => (⟨true, Option.none, Option.none⟩, t)
          | (first_state_key, current_value) :: _ =>
              match f current_value with
              | .error e => (⟨false, some e, Option.none⟩, t)
              | .ok new_value =>
                  let t' := setComponentState t component_id c first_state_key new_value
                  (⟨true, Option.none, Option.none⟩, update_component t' component_id)
  | _, _ => (⟨false, some "Handler or component not found", Option.none⟩, t)

/-! ### Claims about the RPC handlers -/

/-- C2: for every componentId absent from the engine's registry and
every stateKey and value, `updateState` returns exactly
`{success: false, error: "Component or state not found"}` and leaves the
engine — in particular every component's state map — unchanged. -/
theorem updateState_unknown_component (t : QuickTemplate)
    (component_id state_key : String) (value : Value)
    (h : lookup t.components component_id = Option.none) :
    handle_update_state t component_id state_key value
      = (⟨false, some "Component or state not found", Option.none⟩, t) := by
  simp [handle_update_state, h]

theorem updateState_unknown_component_witness :
    lookup (QuickTemplate.mk [] []).components "c0" = Option.none
    ∧ handle_update_state ⟨[], []⟩ "c0" "count" (Value.int 1)
        = (⟨false, some "Component or state not found", Option.none⟩, ⟨[], []⟩) :=
  ⟨rfl, updateState_unknown_component ⟨[], []⟩ "c0" "count" (Value.int 1) rfl⟩

/-- C3: on a registered component whose state map binds `"count"` to `5`,
`updateState(C, "count", 6)` returns `{success: true}`, and a subsequent
`getInitialState(C)` returns `{success: true, state: ...}` where the
state map is the old one with `"count"` rebound to `6` (so it maps
`"count"` to `6`). -/
theorem updateState_then_getInitialState (t : QuickTemplate) (component_id : String)
    (c : Component) (hc : lookup t.components component_id = some c)
    (hcount : lookup c.hook_context.states "count" = some (Value.int 5)) :
    (handle_update_state t component_id "count" (Value.int 6)).1
        = ⟨true, Option.none, Option.none⟩
    ∧ handle_get_initial_state
          (handle_update_state t component_id "count" (Value.int 6)).2 component_id
        = ⟨true, Option.none, some (setKey c.hook_context.states "count" (Value.int 6))⟩
    ∧ lookup (setKey c.hook_context.states "count" (Value.int 6)) "count"
        = some (Value.int 6) := by
  have hsome : (lookup c.hook_context.states "count").isSome = true := by
    rw [hcount]; rfl
  refine ⟨?_, ?_, lookup_setKey_self _ _ _⟩
  · simp [handle_update_state, hc, hsome]
  · simp [handle_update_state, hc, hsome, setComponentState, update_component,
          handle_get_initial_state, lookup_setKey_self]

def compC3 : Component := ⟨⟨[("count", Value.int 5)], []⟩⟩

def tC3 : QuickTemplate := ⟨[("c0", compC3)], []⟩

theorem updateState_then_getInitialState_witness :
    lookup tC3.components "c0" = some compC3
    ∧ lookup compC3.hook_context.states "count" = some (Value.int 5)
    ∧ (handle_update_state tC3 "c0" "count" (Value.int 6)).1
        = ⟨true, Option.none, Option.none⟩
    ∧ handle_get_initial_state (handle_update_state tC3 "c0" "count" (Value.int 6)).2 "c0"
        = ⟨true, Option.none, some [("count", Value.int 6)]⟩ := by
  have h := updateState_then_getInitialState tC3 "c0" compC3 rfl rfl
  exact ⟨rfl, rfl, h.1, h.2.1⟩

/-- C4: on a registered component whose hook context holds two or more
reducers, `dispatchAction` consults exactly the first reducer in the
reducer map's insertion order, applying it to the current value of its
bound state key (missing key read as `None`) and the action payload; the
result — state written back and update triggered on success, error
result on exception — depends only on that first reducer, so no other
reducer is invoked. -/
theorem dispatchAction_first_reducer (t : QuickTemplate) (component_id : String)
    (c : Component) (action : Value) (k1 k2 : String) (i1 i2 : ReducerInfo)
    (rest : List (String × ReducerInfo))
    (hc : lookup t.components component_id = some c)
    (hr : c.hook_context.reducers = (k1, i1) :: (k2, i2) :: rest) :
    handle_dispatch_action t component_id action
      = match i1.reducer ((lookup c.hook_context.states i1.state_key).getD Value.none)
              action with
        | .ok new_state =>
            (⟨true, Option.none, Option.none⟩,
             update_component (setComponentState t component_id c i1.state_key new_state)
               component_id)
        | .error e => (⟨false, some e, Option.none⟩, t) := by
  simp [handle_dispatch_action, hc, hr]

def rinfo1 : ReducerInfo := ⟨fun _ _ => .ok (Value.int 1), "x"⟩

def rinfo2 : ReducerInfo := ⟨fun _ _ => .ok (Value.int 2), "x"⟩

def compC4 : Component := ⟨⟨[("x", Value.int 0)], [("r1", rinfo1), ("r2", rinfo2)]⟩⟩

def tC4 : QuickTemplate := ⟨[("c0", compC4)], []⟩

theorem dispatchAction_first_reducer_witness :
    lookup tC4.components "c0" = some compC4
    ∧ compC4.hook_context.reducers = [("r1", rinfo1), ("r2", rinfo2)]
    ∧ (handle_dispatch_action tC4 "c0" Value.none).1 = ⟨true, Option.none, Option.none⟩
    ∧ (handle_dispatch_action tC4 "c0" Value.none).2.updated = ["c0"]
    ∧ handle_get_initial_state (handle_dispatch_action tC4 "c0" Value.none).2 "c0"
        = ⟨true, Option.none, some [("x", Value.int 1)]⟩ := by
  have h := dispatchAction_first_reducer tC4 "c0" compC4 Value.none
    "r1" "r2" rinfo1 rinfo2 [] rfl rfl
  simp only [rinfo1] at h
  rw [h]
  exact ⟨rfl, rfl, rfl, rfl, rfl⟩

/-- C5: `dispatchAction` catches an exception raised by the invoked
(first) reducer and returns `{success: false, error: str(e)}` with the
engine unchanged, rather than propagating; on an unknown component, or a
component whose reducer map is empty, it returns the not-found failure
result `{success: false, error: "Component or reducer not found"}`. -/
theorem dispatchAction_error_paths (t : QuickTemplate) (component_id : String)
    (c : Component) (action : Value) (k1 : String) (i1 : ReducerInfo)
    (rest : List (String × ReducerInfo)) (e : String) :
    (lookup t.components component_id = some c →
     c.hook_context.reducers = (k1, i1) :: rest →
     i1.reducer ((lookup c.hook_context.states i1.state_key).getD Value.none) action
        = .error e →
     handle_dispatch_action t component_id action
        = (⟨false, some e, Option.none⟩, t))
    ∧ (lookup t.components component_id = some c →
       c.hook_context.reducers = [] →
       handle_dispatch_action t component_id action
          = (⟨false, some "Component or reducer not found", Option.none⟩, t))
    ∧ (lookup t.components component_id = Option.none →
       handle_dispatch_action t component_id action
          = (⟨false, some "Component or reducer not found", Option.none⟩, t)) := by
  refine ⟨fun hc hr he => ?_, fun hc hr => ?_, fun hc => ?_⟩
  · simp [handle_dispatch_action, hc, hr, he]
  · simp [handle_dispatch_action, hc, hr]
  · simp [handle_dispatch_action, hc]

def rinfoBad : ReducerInfo := ⟨fun _ _ => .error "boom", "x"⟩

def compC5 : Component := ⟨⟨[("x", Value.int 0)], [("r1", rinfoBad)]⟩⟩

def compC5e : Component := ⟨⟨[("x", Value.int 0)], []⟩⟩

def tC5 : QuickTemplate := ⟨[("c0", compC5), ("c1", compC5e)], []⟩

theorem dispatchAction_error_paths_witness :
    lookup tC5.components "c0" = some compC5
    ∧ compC5.hook_context.reducers = [("r1", rinfoBad)]
    ∧ handle_dispatch_action tC5 "c0" Value.none
        = (⟨false, some "boom", Option.none⟩, tC5)
    ∧ handle_dispatch_action tC5 "c1" Value.none
        = (⟨false, some "Component or reducer not found", Option.none⟩, tC5)
    ∧ handle_dispatch_action tC5 "missing" Value.none
        = (⟨false, some "Component or reducer not found", Option.none⟩, tC5) := by
  refine ⟨rfl, rfl, ?_, ?_, ?_⟩
  · exact (dispatchAction_error_paths tC5 "c0" compC5 Value.none "r1" rinfoBad []
      "boom").1 rfl rfl rfl
  · exact (dispatchAction_error_paths tC5 "c1" compC5e Value.none "r1" rinfoBad []
      "boom").2.1 rfl rfl
  · exact (dispatchAction_error_paths tC5 "missing" compC5 Value.none "r1" rinfoBad []
      "boom").2.2 rfl

/-! ### Claims about HTML emission and the handler registry -/

/-- C7: `to_html` on a tag in the fixed self-closing set emits only the
opening tag with its attributes and ` />` — no children segment, no
closing tag, and the children are not even visited (the registry is left
as the attribute loop left it); on any other tag it emits the
concatenated children HTML followed by a matching closing tag. -/
theorem toHtml_closing_tags (e : Elem) (hs : HState) :
    (e.tag ∈ selfClosingTags →
      toHtml e hs
        = ("<" ++ e.tag ++ attrsStr (attrsFold e.props hs).1 ++ " />",
           (attrsFold e.props hs).2))
    ∧ (e.tag ∉ selfClosingTags →
      toHtml e hs
        = ("<" ++ e.tag ++ attrsStr (attrsFold e.props hs).1 ++ ">"
             ++ (childrenHtml e.children (attrsFold e.props hs).2).1
             ++ "</" ++ e.tag ++ ">",
           (childrenHtml e.children (attrsFold e.props hs).2).2)) := by
  cases e with
  | mk tag props children key cid =>
      refine ⟨fun h => ?_, fun h => ?_⟩ <;>
        · simp only [Elem.tag] at h
          simp [toHtml, Elem.tag, Elem.props, Elem.children, h]

def hs0 : HState := ⟨0, []⟩

theorem toHtml_closing_tags_witness :
    "img" ∈ selfClosingTags
    ∧ toHtml (Elem.mk "img" [("class_", PropVal.str "pic")]
          [Child.text "ignored"] Option.none Option.none) hs0
        = ("<img class=\"pic\" />", hs0)
    ∧ "div" ∉ selfClosingTags
    ∧ toHtml (Elem.mk "div" [] [Child.text "hi"] Option.none Option.none) hs0
        = ("<div>hi</div>", hs0) := by
  refine ⟨by decide, ?_, by decide, ?_⟩
  · have h := (toHtml_closing_tags (Elem.mk "img" [("class_", PropVal.str "pic")]
        [Child.text "ignored"] Option.none Option.none) hs0).1 (by decide)
    rw [h]; rfl
  · have h := (toHtml_closing_tags (Elem.mk "div" [] [Child.text "hi"]
        Option.none Option.none) hs0).2 (by decide)
    rw [h]; rfl

theorem attrsFold_append (ps qs : List (String × PropVal)) (hs : HState) :
    attrsFold (ps ++ qs) hs
      = ((attrsFold ps hs).1 ++ (attrsFold qs (attrsFold ps hs).2).1,
         (attrsFold qs (attrsFold ps hs).2).2) := by
  induction ps generalizing hs with
  | nil => simp [attrsFold]
  | cons hd tl ih =>
      obtain ⟨k, v⟩ := hd
      simp [attrsFold, ih]

/-- C8: in the attribute loop of `to_html`, a key prefixed `on_` bound to
a function value causes the function to be registered in the
process-wide handler registry under the freshly generated id
`handler_<counter>` and emits exactly the attribute
`data-handler="<id>"` in the key's position; bound to a string it emits
exactly `data-action="<string>"` and leaves the registry alone.  In both
cases the emitted attribute is fully determined as above, so the key
itself is never emitted as an attribute. -/
theorem toHtml_event_attrs (ps qs : List (String × PropVal)) (k : String)
    (hs : HState) (f : Handler) (r s : String)
    (hk : beginsWith k "on_" = true) :
    ((attrsFold (ps ++ (k, PropVal.func f r) :: qs) hs).1
        = (attrsFold ps hs).1
          ++ ("data-handler=\"" ++ (register_event_handler (attrsFold ps hs).2 f).1 ++ "\"")
          :: (attrsFold qs (register_event_handler (attrsFold ps hs).2 f).2).1)
    ∧ (register_event_handler (attrsFold ps hs).2 f).1
        = "handler_" ++ Nat.repr (attrsFold ps hs).2.counter
    ∧ lookup (register_event_handler (attrsFold ps hs).2 f).2.handlers
          (register_event_handler (attrsFold ps hs).2 f).1 = some f
    ∧ (attrsFold (ps ++ (k, PropVal.str s) :: qs) hs).1
        = (attrsFold ps hs).1
          ++ ("data-action=\"" ++ s ++ "\"")
            :: (attrsFold qs (attrsFold ps hs).2).1 := by
  refine ⟨?_, rfl, ?_, ?_⟩
  · rw [attrsFold_append]
    simp [attrsFold, attrEntry, hk]
  · exact lookup_setKey_self _ _ _
  · rw [attrsFold_append]
    simp [attrsFold, attrEntry, hk, PropVal.pyStr]

def handler0 : Handler := fun _ => .ok (.val (Value.int 0))

theorem toHtml_event_attrs_witness :
    beginsWith "on_click" "on_" = true
    ∧ (attrsFold [("on_click", PropVal.func handler0 "<function>")] hs0).1
        = ["data-handler=\"handler_0\""]
    ∧ lookup (attrsFold [("on_click", PropVal.func handler0 "<function>")] hs0).2.handlers
          "handler_0" = some handler0
    ∧ (attrsFold [("on_click", PropVal.str "doIt()")] hs0).1
        = ["data-action=\"doIt()\""] := by
  have h := toHtml_event_attrs [] [] "on_click" hs0 handler0 "<function>" "doIt()" rfl
  refine ⟨rfl, ?_, ?_, ?_⟩
  · simpa [attrsFold, attrEntry] using h.1
  · simpa [attrsFold, attrEntry] using h.2.2.1
  · simpa [attrsFold, attrEntry] using h.2.2.2

theorem setKey_notMem {α : Type} (l : List (String × α)) (k : String) (v : α)
    (h : ∀ p ∈ l, p.1 ≠ k) : setKey l k v = l ++ [(k, v)] := by
  induction l with
  | nil => rfl
  | cons hd tl ih =>
      obtain ⟨k1, v1⟩ := hd
      have hk : ¬k1 = k := h (k1, v1) (List.mem_cons_self _ _)
      simp only [setKey, if_neg hk, List.cons_append, List.cons.injEq, true_and]
      exact ih fun p hp => h p (List.mem_cons_of_mem _ hp)

/-- The invariant maintained by the process-wide registry: every bound
id was produced from an earlier counter value.  It holds for the pristine
module state `⟨0, []⟩` and, by the theorem below, after every
registration. -/
def WFRegistry (hs : HState) : Prop :=
  ∀ p ∈ hs.handlers, ∃ k, k < hs.counter ∧ p.1 = "handler_" ++ Nat.repr k

/-- C10: `register_event_handler` returns the id `handler_<counter>`,
strictly increments the counter, and — in any state reachable from the
pristine module state, i.e. satisfying `WFRegistry` — the returned id
differs from every id previously in the registry (in particular from the
id returned by every previous call, all of which used smaller counter
values), the registry after the call is exactly the old registry with
the new binding appended (nothing removed or overwritten), it maps the
new id to the given handler, and the invariant is preserved. -/
theorem register_event_handler_growth (hs : HState) (h : Handler)
    (hwf : WFRegistry hs) :
    (register_event_handler hs h).1 = "handler_" ++ Nat.repr hs.counter
    ∧ (register_event_handler hs h).2.counter = hs.counter + 1
    ∧ (∀ p ∈ hs.handlers, p.1 ≠ (register_event_handler hs h).1)
    ∧ (register_event_handler hs h).2.handlers
        = hs.handlers ++ [((register_event_handler hs h).1, h)]
    ∧ lookup (register_event_handler hs h).2.handlers
          (register_event_handler hs h).1 = some h
    ∧ WFRegistry (register_event_handler hs h).2 := by
  have hfresh : ∀ p ∈ hs.handlers, p.1 ≠ "handler_" ++ Nat.repr hs.counter := by
    intro p hp hbad
    obtain ⟨k, hk, hpk⟩ := hwf p hp
    rw [hpk] at hbad
    have := natRepr_injective k hs.counter (string_append_left_cancel hbad)
    omega
  refine ⟨rfl, rfl, hfresh, ?_, lookup_setKey_self _ _ _, ?_⟩
  · exact setKey_notMem hs.handlers _ h hfresh
  · intro p hp
    have hcnt : (register_event_handler hs h).2.counter = hs.counter + 1 := rfl
    rw [show (register_event_handler hs h).2.handlers
          = hs.handlers ++ [((register_event_handler hs h).1, h)]
        from setKey_notMem hs.handlers _ h hfresh] at hp
    rcases List.mem_append.mp hp with hold | hnew
    · obtain ⟨k, hk, hpk⟩ := hwf p hold
      exact ⟨k, by omega, hpk⟩
    · refine ⟨hs.counter, by omega, ?_⟩
      simp only [List.mem_singleton] at hnew
      rw [hnew]
      rfl

theorem register_event_handler_growth_witness :
    WFRegistry hs0
    ∧ (register_event_handler hs0 handler0).1 = "handler_0"
    ∧ (register_event_handler hs0 handler0).2.counter = 1
    ∧ (register_event_handler hs0 handler0).2.handlers = [("handler_0", handler0)]
    ∧ lookup (register_event_handler hs0 handler0).2.handlers "handler_0"
        = some handler0 := by
  have hwf : WFRegistry hs0 := by intro p hp; cases hp
  have h := register_event_handler_growth hs0 handler0 hwf
  exact ⟨hwf, h.1, h.2.1, by simpa using h.2.2.2.1, h.2.2.2.2.1⟩

/-! ### Claim C6: serialization round trip -/

mutual
theorem hydrate_toDict_aux : ∀ e : Elem, hydrate (to_dict e) = stringifyTree e
  | .mk tag props children key cid => by
      simp only [to_dict, hydrate, stringifyTree]
      rw [hydrate_childrenDict_aux children]

theorem hydrate_childrenDict_aux :
    ∀ cs : List Child, hydrateChildren (childrenDict cs) = stringifyChildren cs
  | [] => rfl
  | c :: cs => by
      simp only [childrenDict, hydrateChildren, stringifyChildren]
      rw [hydrate_childDict_aux c, hydrate_childrenDict_aux cs]

theorem hydrate_childDict_aux : ∀ c : Child, hydrateChild (childDict c) = stringifyChild c
  | .elem e => by
      simp only [childDict, hydrateChild, stringifyChild]
      rw [hydrate_toDict_aux e]
  | .raw _ => rfl
  | .text _ => rfl
end

mutual
theorem stringifyTree_idem : ∀ e : Elem, stringifyTree (stringifyTree e) = stringifyTree e
  | .mk tag props children key cid => by
      simp only [stringifyTree]
      rw [stringifyChildren_idem children]

theorem stringifyChildren_idem :
    ∀ cs : List Child, stringifyChildren (stringifyChildren cs) = stringifyChildren cs
  | [] => rfl
  | c :: cs => by
      simp only [stringifyChildren]
      rw [stringifyChild_idem c, stringifyChildren_idem cs]

theorem stringifyChild_idem : ∀ c : Child, stringifyChild (stringifyChild c) = stringifyChild c
  | .elem e => by
      simp only [stringifyChild]
      rw [stringifyTree_idem e]
  | .raw _ => rfl
  | .text _ => rfl
end

/-- C6: re-hydrating `to_dict e` (reading back tag, props, children,
key, componentId, recursively) yields exactly `e` with every
non-`Element` child replaced by its stringification — `Element` children
round-trip recursively, text children exactly, `RawHTML` children as
their content string.  Consequently on the serializable subset (trees
already in the image of `stringifyTree`, i.e. with no raw children) the
round trip is the identity: `hydrate (to_dict (stringifyTree e)) =
stringifyTree e`. -/
theorem toDict_roundtrip (e : Elem) :
    hydrate (to_dict e) = stringifyTree e
    ∧ hydrate (to_dict (stringifyTree e)) = stringifyTree e := by
  refine ⟨hydrate_toDict_aux e, ?_⟩
  rw [hydrate_toDict_aux (stringifyTree e), stringifyTree_idem e]

/-! ### Claim C1: `executeHandler` -/

def handlerVal7 : Handler := fun _ => .ok (.val (Value.int 7))

def hsC1 : HState := ⟨1, [("handler_0", handlerVal7)]⟩

def compC1 : Component := ⟨⟨[("count", Value.int 5)], []⟩⟩

def tC1 : QuickTemplate := ⟨[("c0", compC1)], []⟩

/-- C1 counterexample: `handler_0` and component `c0` are registered and
the stored handler returns the non-callable value `7`.  The call returns
`{success: true}`, yet the engine is returned unchanged: no
re-render/broadcast of the component was triggered (the broadcast trace
stays empty).  This refutes the claim's "whenever the call returns
\x7bsuccess:true\x7d, an update (re-render/broadcast) of the component
has been triggered". -/
theorem executeHandler_success_without_update :
    lookup hsC1.handlers "handler_0" = some handlerVal7
    ∧ lookup tC1.components "c0" = some compC1
    ∧ handle_execute_handler hsC1 tC1 "handler_0" "c0"
        = (⟨true, Option.none, Option.none⟩, tC1)
    ∧ (handle_execute_handler hsC1 tC1 "handler_0" "c0").2.updated = [] :=
  ⟨rfl, rfl, rfl, rfl⟩

/-- C1 amended: for every registered handler id and registered
component, `executeHandler` invokes the stored handler on the synthetic
inert event (`target = None`, `preventDefault` a no-op returning
`None`); if the handler's return value is callable and the component has
at least one state slot, the callable is applied to the first slot's
current value, the result is stored there, and an update of the
component is triggered; in every other case where the handler (and the
possible application) does not raise, the call returns
`{success: true}` without triggering an update; raised exceptions are
caught and returned as `{success: false, error: str(e)}`. -/
theorem executeHandler_spec (hs : HState) (t : QuickTemplate)
    (handler_id component_id : String) (handler : Handler) (c : Component)
    (hh : lookup hs.handlers handler_id = some handler)
    (hc : lookup t.components component_id = some c) :
    (handle_execute_handler hs t handler_id component_id
      = match handler mockEvent with
        | .error e => (⟨false, some e, Option.none⟩, t)
        | .ok (.val _) => (⟨true, Option.none, Option.none⟩, t)
        | .ok (.func f) =>
            match c.hook_context.states with
            | [] => (⟨true, Option.none, Option.none⟩, t)
            | (first_state_key, current_value) :: _ =>
                match f current_value with
                | .error e => (⟨false, some e, Option.none⟩, t)
                | .ok new_value =>
                    (⟨true, Option.none, Option.none⟩,
                     update_component
                       (setComponentState t component_id c first_state_key new_value)
                       component_id))
    ∧ mockEvent.target = Value.none
    ∧ (∀ u : Unit, mockEvent.preventDefault u = Value.none)
    ∧ (∀ (k0 : String) (nv : Value),
        (update_component (setComponentState t component_id c k0 nv)
            component_id).updated = t.updated ++ [component_id]) := by
  refine ⟨?_, rfl, fun _ => rfl, fun k0 nv => ?_⟩
  · simp only [handle_execute_handler, hh, hc]
  · simp [update_component, setComponentState, lookup_setKey_self]

def handlerInc : Handler :=
  fun _ => .ok (.func fun v =>
    match v with
    | Value.int n => .ok (Value.int (n + 1))
    | v => .ok v)

def hsC1w : HState := ⟨1, [("handler_0", handlerInc)]⟩

theorem executeHandler_spec_witness :
    lookup hsC1w.handlers "handler_0" = some handlerInc
    ∧ lookup tC1.components "c0" = some compC1
    ∧ handle_execute_handler hsC1w tC1 "handler_0" "c0"
        = (⟨true, Option.none, Option.none⟩,
           ⟨[("c0", ⟨⟨[("count", Value.int 6)], []⟩⟩)], ["c0"]⟩) := by
  have h := executeHandler_spec hsC1w tC1 "handler_0" "c0" handlerInc compC1 rfl rfl
  refine ⟨rfl, rfl, ?_⟩
  rw [h.1]
  rfl

/-! ### Claim C9: `HTMLElement.__call__` -/

theorem lookup_eq_none_of_notMem {α : Type} (l : List (String × α)) (k : String)
    (h : k ∉ l.map Prod.fst) : lookup l k = Option.none := by
  induction l with
  | nil => rfl
  | cons hd tl ih =>
      obtain ⟨k1, v1⟩ := hd
      simp only [List.map_cons, List.mem_cons] at h
      push_neg at h
      have hne : ¬k1 = k := fun he => h.1 he.symm
      simp only [lookup, if_neg hne]
      exact ih h.2

theorem lookup_updateAll_mem {α : Type} (ps kw : List (String × α)) (k : String) (v : α)
    (hnd : (kw.map Prod.fst).Nodup) (h : lookup kw k = some v) :
    lookup (updateAll ps kw) k = some v := by
  induction kw generalizing ps with
  | nil => simp [lookup] at h
  | cons hd tl ih =>
      obtain ⟨k1, v1⟩ := hd
      simp only [List.map_cons, List.nodup_cons] at hnd
      by_cases hk : k1 = k
      · subst hk
        rw [show lookup ((k1, v1) :: tl) k1 = some v1 from by simp [lookup]] at h
        obtain rfl := Option.some.inj h
        have hnone : lookup tl k1 = Option.none :=
          lookup_eq_none_of_notMem tl k1 hnd.1
        show lookup (updateAll (setKey ps k1 v1) tl) k1 = some v1
        rw [lookup_updateAll_notMem _ _ _ hnone, lookup_setKey_self]
      · rw [show lookup ((k1, v1) :: tl) k = lookup tl k from by
            simp [lookup, hk]] at h
        show lookup (updateAll (setKey ps k1 v1) tl) k = some v
        exact ih (setKey ps k1 v1) hnd.2 h

/-- Modelled from the claim's own wording, for refutation: the children
C9 prescribes — every positional argument after a first mapping is an
`Element` appended as-is, a sequence flattened in, "and stringified and
appended otherwise"; Python `str(None)` is `"None"`. -/
def childrenPerClaimC9 (args : List Arg) : List Child :=
  (args.map fun a =>
    match a with
    | Arg.dictArg _ r => [Child.text r]
    | Arg.elemArg e => [Child.elem e]
    | Arg.listArg cs => cs
    | Arg.noneArg => [Child.text "None"]
    | Arg.other r => [Child.text r]).flatten

/-- C9 counterexample: calling the `div` constructor with positional
arguments `("x", None)` produces children `["x"]` — the `None` argument
is silently skipped by the `elif arg is not None` guard — while the
claim's "stringified and appended otherwise" prescribes
`["x", "None"]`. -/
theorem htmlCall_none_skipped :
    (htmlElementCall "div" [Arg.other "x", Arg.noneArg] []).children = [Child.text "x"]
    ∧ childrenPerClaimC9 [Arg.other "x", Arg.noneArg]
        = [Child.text "x", Child.text "None"]
    ∧ (htmlElementCall "div" [Arg.other "x", Arg.noneArg] []).children
        ≠ childrenPerClaimC9 [Arg.other "x", Arg.noneArg] := by
  refine ⟨rfl, rfl, fun h => ?_⟩
  have hlen := congrArg List.length h
  simp [htmlElementCall, collectChildren, argChildren, childrenPerClaimC9,
        Elem.children] at hlen

/-- C9 amended: a first positional argument that is a mapping becomes
the attributes mapping, otherwise it is classified like the rest; each
subsequent positional argument is appended as-is if it is an `Element`,
flattened into the children if it is a sequence, *skipped if it is
`None`*, and stringified and appended otherwise (a mapping in non-first
position is stringified too); keyword arguments are merged into the
attributes mapping, and on a key collision with the positional
attributes mapping the keyword argument's value wins. -/
theorem htmlCall_spec (tag : String) (ps kwargs : List (String × PropVal))
    (r : String) (rest : List Arg) (a : Arg) (e : Elem) (cs : List Child)
    (s k : String) (v : PropVal) :
    htmlElementCall tag (Arg.dictArg ps r :: rest) kwargs
      = Elem.mk tag (updateAll ps kwargs) (collectChildren rest)
          Option.none Option.none
    ∧ ((∀ ps' r', a ≠ Arg.dictArg ps' r') →
       htmlElementCall tag (a :: rest) kwargs
        = Elem.mk tag (updateAll [] kwargs)
            (argChildren a ++ collectChildren rest) Option.none Option.none)
    ∧ htmlElementCall tag [] kwargs
        = Elem.mk tag (updateAll [] kwargs) [] Option.none Option.none
    ∧ argChildren (Arg.elemArg e) = [Child.elem e]
    ∧ argChildren (Arg.listArg cs) = cs
    ∧ argChildren Arg.noneArg = []
    ∧ argChildren (Arg.other s) = [Child.text s]
    ∧ (lookup kwargs k = Option.none →
        lookup (updateAll ps kwargs) k = lookup ps k)
    ∧ ((kwargs.map Prod.fst).Nodup → lookup kwargs k = some v →
        lookup (updateAll ps kwargs) k = some v) := by
  refine ⟨rfl, fun ha => ?_, rfl, rfl, rfl, rfl, rfl,
          lookup_updateAll_notMem ps kwargs k,
          fun hnd hv => lookup_updateAll_mem ps kwargs k v hnd hv⟩
  cases a with
  | dictArg ps' r' => exact absurd rfl (ha ps' r')
  | elemArg e' => rfl
  | listArg cs' => rfl
  | noneArg => rfl
  | other r' => rfl

theorem htmlCall_spec_witness :
    htmlElementCall "div"
        [Arg.dictArg [("class_", PropVal.str "a"), ("id", PropVal.str "i")] "\x7b...\x7d",
         Arg.other "hello"]
        [("class_", PropVal.str "b")]
      = Elem.mk "div"
          [("class_", PropVal.str "b"), ("id", PropVal.str "i")]
          [Child.text "hello"] Option.none Option.none
    ∧ lookup [("class_", PropVal.str "b")] "class_" = some (PropVal.str "b")
    ∧ lookup (updateAll [("class_", PropVal.str "a"), ("id", PropVal.str "i")]
          [("class_", PropVal.str "b")]) "class_" = some (PropVal.str "b") := by
  have h := htmlCall_spec "div"
    [("class_", PropVal.str "a"), ("id", PropVal.str "i")]
    [("class_", PropVal.str "b")] "\x7b...\x7d" [Arg.other "hello"]
    Arg.noneArg (Elem.mk "div" [] [] Option.none Option.none) [] "s" "class_"
    (PropVal.str "b")
  refine ⟨?_, rfl, ?_⟩
  · rw [h.1]
    rfl
  · exact h.2.2.2.2.2.2.2.2 (by simp) rfl

end QuickAPI
